import Mathlib

/-!
Verification of `src/scripts/analyze-beats.py` (beat analyzer with
bass/snare separation).

The script is a thin pipeline over two external numerical libraries
(librosa, scipy).  The library primitives themselves (audio loading,
HPSS, onset-strength envelope, peak picking, Butterworth design,
beat tracking) are opaque to this development and are modelled as
oracle parameters; everything the script itself computes — cutoff
normalisation and clamping, frame-to-time conversion (hop 512),
greedy minimum-interval de-duplication, 3-decimal rounding, the
sorted set-union merge, the median-interval BPM fallback and the
result/CLI assembly — is embedded over `ℚ` exactly as written in the
source.  Python's `round` (banker's rounding) is modelled by
`roundEven`.
-/

namespace AnalyzeBeats

/-- Round half to even over `ℚ`: the model of Python's built-in `round`
(on exact values).  `roundEven q` is the nearest integer to `q`, ties
going to the even integer. -/
def roundEven (q : ℚ) : ℤ :=
  if Int.fract q < 1/2 then ⌊q⌋
  else if 1/2 < Int.fract q then ⌊q⌋ + 1
  else if ⌊q⌋ % 2 = 0 then ⌊q⌋ else ⌊q⌋ + 1

/-- Python `round(t, 3)`: round to 3 decimal places. -/
def round3 (q : ℚ) : ℚ := (roundEven (1000 * q) : ℚ) / 1000

/-- Python `round(d, 2)`: round to 2 decimal places. -/
def round2 (q : ℚ) : ℚ := (roundEven (100 * q) : ℚ) / 100

theorem roundEven_le (q : ℚ) : (roundEven q : ℚ) ≤ q + 1/2 := by
  have h0 := Int.fract_nonneg q
  have h1 := Int.fract_lt_one q
  have hf : (⌊q⌋ : ℚ) = q - Int.fract q := by
    have := Int.self_sub_floor q
    linarith
  unfold roundEven
  split_ifs with hlt hgt hev <;> push_cast <;> rw [hf] <;> linarith

theorem le_roundEven (q : ℚ) : q - 1/2 ≤ (roundEven q : ℚ) := by
  have h0 := Int.fract_nonneg q
  have h1 := Int.fract_lt_one q
  have hf : (⌊q⌋ : ℚ) = q - Int.fract q := by
    have := Int.self_sub_floor q
    linarith
  unfold roundEven
  split_ifs with hlt hgt hev <;> push_cast <;> rw [hf] <;> linarith

/-- When `roundEven` rounds exactly half a unit up, the result is even. -/
theorem roundEven_eq_add_half (q : ℚ) (h : (roundEven q : ℚ) = q + 1/2) :
    roundEven q % 2 = 0 := by
  have h0 := Int.fract_nonneg q
  have h1 := Int.fract_lt_one q
  have hf : (⌊q⌋ : ℚ) = q - Int.fract q := by
    have := Int.self_sub_floor q
    linarith
  unfold roundEven at *
  split_ifs at * with hlt hgt hev
  · exfalso; rw [hf] at h; linarith
  · exfalso; push_cast at h; rw [hf] at h; linarith
  · exfalso
    have : ¬ Int.fract q < 1/2 := hlt
    have hfr : Int.fract q = 1/2 := by linarith
    rw [hf, hfr] at h; linarith
  · have hq : ⌊q⌋ % 2 = 1 := by omega
    omega

/-- When `roundEven` rounds exactly half a unit down, the result is even. -/
theorem roundEven_eq_sub_half (q : ℚ) (h : (roundEven q : ℚ) = q - 1/2) :
    roundEven q % 2 = 0 := by
  have h0 := Int.fract_nonneg q
  have h1 := Int.fract_lt_one q
  have hf : (⌊q⌋ : ℚ) = q - Int.fract q := by
    have := Int.self_sub_floor q
    linarith
  unfold roundEven at *
  split_ifs at * with hlt hgt hev
  · exfalso; rw [hf] at h; linarith
  · exfalso; push_cast at h; rw [hf] at h; linarith
  · exact hev
  · exfalso
    have : ¬ Int.fract q < 1/2 := hlt
    have hfr : Int.fract q = 1/2 := by linarith
    push_cast at h; rw [hf, hfr] at h; linarith

/-- If two rationals are at least an even integer `K` apart, so are their
half-even roundings.  (For odd `K` this can fail, with both ties broken
toward each other.) -/
theorem roundEven_gap (x y : ℚ) (K : ℤ) (hK : K % 2 = 0) (h : (K : ℚ) ≤ y - x) :
    K ≤ roundEven y - roundEven x := by
  by_contra hc
  have hle : roundEven y - roundEven x ≤ K - 1 := by omega
  have hub := roundEven_le x
  have hlb := le_roundEven y
  have heq : roundEven y - roundEven x = K - 1 := by
    have hge : (K : ℚ) - 1 ≤ (roundEven y : ℚ) - (roundEven x : ℚ) := by linarith
    have hge' : K - 1 ≤ roundEven y - roundEven x := by exact_mod_cast hge
    omega
  have heqQ : (roundEven y : ℚ) - (roundEven x : ℚ) = (K : ℚ) - 1 := by
    exact_mod_cast congrArg (fun z : ℤ => (z : ℚ)) heq
  have hx : (roundEven x : ℚ) = x + 1/2 := by linarith
  have hy : (roundEven y : ℚ) = y - 1/2 := by linarith
  have hxe := roundEven_eq_add_half x hx
  have hye := roundEven_eq_sub_half y hy
  omega

/-- The greedy minimum-interval walk of
`for t in rest: if t - filtered[-1] >= min_interval: filtered.append(t)`
(`src/scripts/analyze-beats.py`, lines 75-80 and 123-127), with `last`
the last kept element so far. -/
def dedupFrom (m : ℚ) (last : ℚ) : List ℚ → List ℚ
  | [] => []
  | t :: ts => if m ≤ t - last then t :: dedupFrom m t ts else dedupFrom m last ts

/-- Greedy minimum-interval filter: the first element is always kept,
then `dedupFrom`. -/
def minIntervalFilter (m : ℚ) : List ℚ → List ℚ
  | [] => []
  | t :: ts => t :: dedupFrom m t ts

theorem chain_dedupFrom (m : ℚ) :
    ∀ (l : List ℚ) (last : ℚ),
      List.Chain (fun a b => m ≤ b - a) last (dedupFrom m last l)
  | [], _ => List.Chain.nil
  | t :: ts, last => by
    rw [dedupFrom]
    split_ifs with h
    · exact List.Chain.cons h (chain_dedupFrom m ts t)
    · exact chain_dedupFrom m ts last

/-- Any two consecutive elements kept by the greedy filter are at least
`m` apart (for arbitrary input, sorted or not). -/
theorem chain'_minIntervalFilter (m : ℚ) (l : List ℚ) :
    List.Chain' (fun a b => m ≤ b - a) (minIntervalFilter m l) := by
  cases l with
  | nil => exact List.chain'_nil
  | cons t ts => exact chain_dedupFrom m ts t

theorem dedupFrom_subset (m : ℚ) :
    ∀ (l : List ℚ) (last : ℚ), dedupFrom m last l ⊆ l
  | [], _ => by simp [dedupFrom]
  | t :: ts, last => by
    rw [dedupFrom]
    split_ifs with h
    · exact List.cons_subset_cons t (dedupFrom_subset m ts t)
    · exact List.Subset.trans (dedupFrom_subset m ts last) (List.subset_cons_self t ts)

/-- Every element kept by the greedy filter is an element of the input. -/
theorem minIntervalFilter_subset (m : ℚ) (l : List ℚ) :
    minIntervalFilter m l ⊆ l := by
  cases l with
  | nil => simp [minIntervalFilter]
  | cons t ts =>
    rw [minIntervalFilter]
    exact List.cons_subset_cons t (dedupFrom_subset m ts t)

/-- `librosa.frames_to_time(frames, sr=sr)` with the default hop length
512: frame `f` maps to `512 * f / sr` seconds. -/
def framesToTime (sr : ℕ) (frames : List ℕ) : List ℚ :=
  frames.map (fun f => (f : ℚ) * 512 / (sr : ℚ))

/-- `detect_onsets(y, sr, min_interval)` (lines 57-82).  The calls
`librosa.onset.onset_strength` / `librosa.onset.onset_detect` are
external peak picking; their output — the detected onset frame
indices — is the oracle parameter `frames`.  The function converts
frames to times, greedily drops onsets closer than `min_interval` to
the last kept one (first onset always kept), and rounds each kept
time to 3 decimals.  An empty frame list yields `[]`. -/
def detect_onsets (frames : List ℕ) (sr : ℕ) (min_interval : ℚ) : List ℚ :=
  (minIntervalFilter min_interval (framesToTime sr frames)).map round3

/-- Python `sorted(set(a + b))`: the ascending enumeration of the
distinct elements of the two lists (line 120). -/
def sortedUnion (a b : List ℚ) : List ℚ :=
  List.insertionSort (· ≤ ·) ((a ++ b).dedup)

/-- `np.diff`: consecutive differences. -/
def diffs : List ℚ → List ℚ
  | a :: b :: rest => (b - a) :: diffs (b :: rest)
  | _ => []

/-- `np.median`: sort, then the middle element (odd length) or the mean
of the two middle elements (even length).  Junk value 0 on `[]`
(the script never takes the median of an empty list). -/
def median (l : List ℚ) : ℚ :=
  let s := List.insertionSort (· ≤ ·) l
  let n := l.length
  if n = 0 then 0
  else if n % 2 = 1 then s.getD (n / 2) 0
  else (s.getD (n / 2 - 1) 0 + s.getD (n / 2) 0) / 2

/-- The normalised band computed by `butter_bandpass` (lines 37-48)
before it is handed to `scipy.signal.butter`: cutoffs are divided by
the Nyquist frequency `sr / 2`, clamped into `[0.001, 0.999]`, and if
then `low >= high`, `high` is forced to `low + 0.01`. -/
def butter_bandpass_band (lowcut highcut : ℚ) (sr : ℕ) : ℚ × ℚ :=
  let nyq : ℚ := (sr : ℚ) / 2
  let low : ℚ := lowcut / nyq
  let high : ℚ := highcut / nyq
  let low2 : ℚ := max (1/1000) (min low (999/1000))
  let high2 : ℚ := max (1/1000) (min high (999/1000))
  if high2 ≤ low2 then (low2, low2 + 1/100) else (low2, high2)

/-- One frequency band of `analyze_audio` (lines 103-117): the whole
`apply_bandpass` + `detect_onsets` attempt sits in a `try`; `none`
models an exception anywhere in the band (the band then degrades to
`[]`), `some frames` models a successful run whose detected onset
frames are `frames`.  Both bands use `min_interval=0.15`. -/
def bandHits (oracle : Option (List ℕ)) (sr : ℕ) : List ℚ :=
  match oracle with
  | none => []
  | some frames => detect_onsets frames sr (3/20)

/-- Lines 119-128: `all_beats = sorted(set(bass_hits + snare_hits))`,
then, only when more than one beat is present, the greedy 0.1 s
minimum-interval filter. -/
def mergeBeats (bass snare : List ℚ) : List ℚ :=
  let ab := sortedUnion bass snare
  if 1 < ab.length then minIntervalFilter (1/10) ab else ab

/-- Lines 138-145, the `except` branch: if at least 4 combined beats
exist, BPM is `round(60 / median(np.diff(all_beats[:20])))` when that
median is positive and 120 otherwise; with fewer than 4 beats, 120. -/
def fallbackBpm (all_beats : List ℚ) : ℤ :=
  if 4 ≤ all_beats.length then
    let avg_interval := median (diffs (all_beats.take 20))
    if 0 < avg_interval then roundEven (60 / avg_interval) else 120
  else 120

/-- Lines 132-136: `librosa.beat.beat_track` may return the tempo as a
scalar (`Sum.inl`) or as an array (`Sum.inr`); a scalar or the first
array element is used.  `tempo[0]` on an empty array raises
`IndexError` inside the same `try`, hence `none`. -/
def normalizeTempo : ℚ ⊕ List ℚ → Option ℚ
  | Sum.inl t => some t
  | Sum.inr [] => none
  | Sum.inr (t :: _) => some t

/-- Lines 130-145: the whole BPM computation.  The oracle `tR` is
`none` when `librosa.beat.beat_track` itself raises, otherwise the
scalar-or-array tempo it returned. -/
def computeBpm (tR : Option (ℚ ⊕ List ℚ)) (all_beats : List ℚ) : ℤ :=
  match tR.bind normalizeTempo with
  | some t => roundEven t
  | none => fallbackBpm all_beats

/-- The output record of `analyze_audio` (lines 147-155). -/
structure AnalysisResult where
  bass_hits : List ℚ
  snare_hits : List ℚ
  all_beats : List ℚ
  bpm : ℤ
  duration : ℚ
  bass_count : ℕ
  snare_count : ℕ

/-- `analyze_audio(filepath)` (lines 85-155), parameterised by the
oracles for the external library calls: the per-band onset-frame
results `bf`, `sf` (see `bandHits`), the sample rate `sr`, the
beat-track outcome `tR` and the reported duration `d`. -/
def analyze_audio (bf sf : Option (List ℕ)) (sr : ℕ)
    (tR : Option (ℚ ⊕ List ℚ)) (d : ℚ) : AnalysisResult :=
  { bass_hits := bandHits bf sr
    snare_hits := bandHits sf sr
    all_beats := mergeBeats (bandHits bf sr) (bandHits sf sr)
    bpm := computeBpm tR (mergeBeats (bandHits bf sr) (bandHits sf sr))
    duration := round2 d
    bass_count := (bandHits bf sr).length
    snare_count := (bandHits sf sr).length }

/-- Outcome of the `analyze_audio` call as seen by `main` (lines
158-173): success, `FileNotFoundError`, or any other exception with
its message. -/
inductive RunOutcome where
  | ok (r : AnalysisResult)
  | fileNotFound
  | err (msg : String)

/-- What `main` emits: the error message (if any), the result record
(if any), and the process exit status. -/
structure CliOutput where
  errorMsg : Option String
  result : Option AnalysisResult
  exitCode : ℕ

/-- `main()` (lines 158-173): with fewer than two entries in
`sys.argv`, a usage error and exit 1; otherwise run the analysis on
`sys.argv[1]`; `FileNotFoundError` yields the message
`"File not found: " ++ filepath` and exit 1; any other exception
yields its message and exit 1. -/
def main (sys_argv : List String) (run : String → RunOutcome) : CliOutput :=
  match sys_argv with
  | _ :: fp :: _ =>
    match run fp with
    | RunOutcome.ok r => { errorMsg := none, result := some r, exitCode := 0 }
    | RunOutcome.fileNotFound =>
      { errorMsg := some ("File not found: " ++ fp), result := none, exitCode := 1 }
    | RunOutcome.err m => { errorMsg := some m, result := none, exitCode := 1 }
  | _ =>
    { errorMsg := some "Usage: python analyze-beats.py <audio_file>"
      result := none, exitCode := 1 }

/-- Modelled from the spec (section 4.3 step 5, section 8): the merged
beat list as the spec words it — set union, sort ascending, then the
greedy 0.1 s de-duplication of 4.2 (first element always kept),
unconditionally. -/
def specMergeBeats (bass snare : List ℚ) : List ℚ :=
  minIntervalFilter (1/10) (sortedUnion bass snare)

/-- Modelled from the spec (section 4.3 step 6): the fallback BPM as
the spec words it — take up to the first 20 combined beats, their
consecutive intervals, the median; BPM is `round(60 / median)`, and
120 when fewer than 4 beats are available or the median is
non-positive. -/
def specFallbackBpm (beats : List ℚ) : ℤ :=
  let med := median (diffs (beats.take 20))
  if 4 ≤ beats.length ∧ 0 < med then roundEven (60 / med) else 120

@[simp] theorem analyze_bass_hits (bf sf : Option (List ℕ)) (sr : ℕ)
    (tR : Option (ℚ ⊕ List ℚ)) (d : ℚ) :
    (analyze_audio bf sf sr tR d).bass_hits = bandHits bf sr := rfl

@[simp] theorem analyze_snare_hits (bf sf : Option (List ℕ)) (sr : ℕ)
    (tR : Option (ℚ ⊕ List ℚ)) (d : ℚ) :
    (analyze_audio bf sf sr tR d).snare_hits = bandHits sf sr := rfl

@[simp] theorem analyze_all_beats (bf sf : Option (List ℕ)) (sr : ℕ)
    (tR : Option (ℚ ⊕ List ℚ)) (d : ℚ) :
    (analyze_audio bf sf sr tR d).all_beats
      = mergeBeats (bandHits bf sr) (bandHits sf sr) := rfl

@[simp] theorem analyze_bpm (bf sf : Option (List ℕ)) (sr : ℕ)
    (tR : Option (ℚ ⊕ List ℚ)) (d : ℚ) :
    (analyze_audio bf sf sr tR d).bpm
      = computeBpm tR (mergeBeats (bandHits bf sr) (bandHits sf sr)) := rfl

theorem diffs_length : ∀ l : List ℚ, (diffs l).length = l.length - 1
  | [] => rfl
  | [_] => rfl
  | a :: b :: rest => by
    rw [diffs]
    have := diffs_length (b :: rest)
    simp only [List.length_cons] at *
    omega

theorem diffs_all_ge (c : ℚ) :
    ∀ l : List ℚ, List.Chain' (fun a b => c ≤ b - a) l → ∀ x ∈ diffs l, c ≤ x
  | [] => by intro _ x hx; simp [diffs] at hx
  | [_] => by intro _ x hx; simp [diffs] at hx
  | a :: b :: rest => by
    intro hch x hx
    rw [List.chain'_cons] at hch
    rw [diffs, List.mem_cons] at hx
    rcases hx with hx | hx
    · exact hx ▸ hch.1
    · exact diffs_all_ge c (b :: rest) hch.2 x hx

/-- If every element of a nonempty list is at least `c`, so is its
median. -/
theorem le_median (c : ℚ) (l : List ℚ) (hne : l ≠ []) (h : ∀ x ∈ l, c ≤ x) :
    c ≤ median l := by
  have hlen : (List.insertionSort (· ≤ ·) l).length = l.length :=
    (List.perm_insertionSort _ l).length_eq
  have hmem : ∀ x ∈ List.insertionSort (· ≤ ·) l, c ≤ x := by
    intro x hx
    exact h x ((List.perm_insertionSort _ l).mem_iff.mp hx)
  have hpos : 0 < l.length := List.length_pos.mpr hne
  unfold median
  dsimp only
  split_ifs with h0 hodd
  · omega
  · have hidx : l.length / 2 < (List.insertionSort (· ≤ ·) l).length := by omega
    rw [List.getD_eq_getElem _ 0 hidx]
    exact hmem _ (List.getElem_mem hidx)
  · have hidx1 : l.length / 2 - 1 < (List.insertionSort (· ≤ ·) l).length := by omega
    have hidx2 : l.length / 2 < (List.insertionSort (· ≤ ·) l).length := by omega
    rw [List.getD_eq_getElem _ 0 hidx1, List.getD_eq_getElem _ 0 hidx2]
    have h1 := hmem _ (List.getElem_mem hidx1)
    have h2 := hmem _ (List.getElem_mem hidx2)
    linarith

/-- The merged beat list (whenever it has at least two elements, i.e.
whenever the 0.1 s filter actually ran) has consecutive gaps of at
least 0.1 s. -/
theorem chain'_mergeBeats (bass snare : List ℚ)
    (h : 2 ≤ (mergeBeats bass snare).length) :
    List.Chain' (fun a b => (1:ℚ)/10 ≤ b - a) (mergeBeats bass snare) := by
  unfold mergeBeats at h ⊢
  dsimp only at h ⊢
  split_ifs at h ⊢ with hab
  · exact chain'_minIntervalFilter _ _
  · omega

/-- The code's merge (with its `len(all_beats) > 1` guard) agrees with
the spec's description (greedy 0.1 s filter applied unconditionally):
on lists of length at most one the filter is the identity. -/
theorem mergeBeats_eq_spec (bass snare : List ℚ) :
    mergeBeats bass snare = specMergeBeats bass snare := by
  unfold mergeBeats specMergeBeats
  rcases h : sortedUnion bass snare with _ | ⟨x, _ | ⟨y, l⟩⟩
  · simp [minIntervalFilter]
  · simp [minIntervalFilter, dedupFrom]
  · have hlen : 1 < (x :: y :: l).length := by simp
    rw [if_pos hlen]

/-- Every merged beat comes from one of the two band lists. -/
theorem mem_mergeBeats (bass snare : List ℚ) :
    ∀ x ∈ mergeBeats bass snare, x ∈ bass ∨ x ∈ snare := by
  intro x hx
  rw [mergeBeats_eq_spec] at hx
  have h1 : x ∈ sortedUnion bass snare := minIntervalFilter_subset _ _ hx
  have h2 : x ∈ (bass ++ snare).dedup :=
    (List.perm_insertionSort _ _).mem_iff.mp h1
  rw [List.mem_dedup, List.mem_append] at h2
  exact h2

/-- The code's fallback BPM agrees with the spec's description of it. -/
theorem fallbackBpm_eq_spec (beats : List ℚ) :
    fallbackBpm beats = specFallbackBpm beats := by
  unfold fallbackBpm specFallbackBpm
  dsimp only
  split_ifs with h1 h2 h3 h4 <;> first
    | rfl
    | tauto

/-- C2 (amended): for every detected frame sequence, sample rate, and
minimum interval that is a positive even multiple of 0.001 s — which
includes both intervals the program configures, 0.15 s and 0.1 s —
the list returned by `detect_onsets` (after its 3-decimal rounding)
is strictly ascending and every consecutive pair differs by at least
the minimum interval; no detected onsets yields an empty list.  (For
an arbitrary minimum interval the rounding can shrink a gap below the
threshold; see the counterexample.) -/
theorem detect_onsets_ascending (frames : List ℕ) (sr : ℕ) (k : ℕ) (hk : 0 < k) :
    List.Chain' (fun a b => a < b ∧ (2 * k : ℚ) / 1000 ≤ b - a)
      (detect_onsets frames sr ((2 * k : ℚ) / 1000))
    ∧ detect_onsets [] sr ((2 * k : ℚ) / 1000) = [] := by
  constructor
  · unfold detect_onsets
    rw [List.chain'_map]
    refine (chain'_minIntervalFilter _ _).imp ?_
    intro a b hab
    have hK : (2 * (k : ℤ)) ≤ roundEven (1000 * b) - roundEven (1000 * a) := by
      apply roundEven_gap
      · omega
      · push_cast
        linarith
    have hKQ : (2 * (k : ℚ)) ≤ (roundEven (1000 * b) : ℚ) - (roundEven (1000 * a) : ℚ) := by
      exact_mod_cast hK
    have hk1 : (1 : ℚ) ≤ (k : ℚ) := by exact_mod_cast hk
    unfold round3
    constructor
    · linarith
    · linarith
  · rfl

/-- Witness for C2 at the configured 0.15 s interval (`k = 75`), sample
rate 512000, frames 0.15 s apart. -/
theorem detect_onsets_ascending_witness :
    0 < 75
    ∧ (List.Chain' (fun a b => a < b ∧ (2 * (75 : ℕ) : ℚ) / 1000 ≤ b - a)
        (detect_onsets [0, 150, 300] 512000 ((2 * (75 : ℕ) : ℚ) / 1000))
      ∧ detect_onsets [] 512000 ((2 * (75 : ℕ) : ℚ) / 1000) = []) :=
  ⟨by norm_num, detect_onsets_ascending [0, 150, 300] 512000 75 (by norm_num)⟩

/-- Counterexample to C2 as stated: with minimum interval 0.0232 s at
sample rate 22050, frames 0 and 1 lie 512/22050 ≈ 0.02322 s apart, so
both are kept, but after rounding to 3 decimals the returned times 0
and 0.023 differ by less than the minimum interval. -/
theorem detect_onsets_ascending_cex :
    ¬ List.Chain' (fun a b => a < b ∧ (29 : ℚ) / 1250 ≤ b - a)
      (detect_onsets [0, 1] 22050 ((29 : ℚ) / 1250)) := by
  have h : detect_onsets [0, 1] 22050 ((29 : ℚ) / 1250) = [0, 23/1000] := by
    norm_num [detect_onsets, framesToTime, minIntervalFilter, dedupFrom, round3,
      roundEven, Int.fract]
  rw [h]
  intro hch
  rw [List.chain'_cons] at hch
  have := hch.1.2
  norm_num at this

/-- C3: the `all_beats` list of every analysis result is exactly the
sorted set union of the bass and snare lists with the greedy 0.1 s
de-duplication (first element always kept), and every merged beat is
an element of `bass_hits` or of `snare_hits`. -/
theorem all_beats_merge_spec (bf sf : Option (List ℕ)) (sr : ℕ)
    (tR : Option (ℚ ⊕ List ℚ)) (d : ℚ) :
    (analyze_audio bf sf sr tR d).all_beats
      = specMergeBeats (analyze_audio bf sf sr tR d).bass_hits
          (analyze_audio bf sf sr tR d).snare_hits
    ∧ ∀ x ∈ (analyze_audio bf sf sr tR d).all_beats,
        x ∈ (analyze_audio bf sf sr tR d).bass_hits
        ∨ x ∈ (analyze_audio bf sf sr tR d).snare_hits := by
  simp only [analyze_all_beats, analyze_bass_hits, analyze_snare_hits]
  exact ⟨mergeBeats_eq_spec _ _, mem_mergeBeats _ _⟩

/-- C4 (amended): `butter_bandpass` normalizes both cutoffs by the
Nyquist frequency and clamps them to the closed interval
[0.001, 0.999]; if after clamping low ≥ high, high is forced to
low + 0.01.  The designed band therefore always satisfies
0.001 ≤ low ≤ 0.999 and low < high ≤ 1.009 — non-degenerate, but
`high` can leave the clamping interval (the clamp is to the closed
interval, and the `low + 0.01` adjustment can push `high` above
0.999). -/
theorem butter_band_valid (lowcut highcut : ℚ) (sr : ℕ) :
    1/1000 ≤ (butter_bandpass_band lowcut highcut sr).1
    ∧ (butter_bandpass_band lowcut highcut sr).1 ≤ 999/1000
    ∧ (butter_bandpass_band lowcut highcut sr).1 < (butter_bandpass_band lowcut highcut sr).2
    ∧ (butter_bandpass_band lowcut highcut sr).2 ≤ 1009/1000 := by
  unfold butter_bandpass_band
  dsimp only
  have hl1 : (1:ℚ)/1000 ≤ max (1/1000) (min (lowcut / ((sr : ℚ) / 2)) (999/1000)) :=
    le_max_left _ _
  have hl2 : max (1/1000) (min (lowcut / ((sr : ℚ) / 2)) (999/1000)) ≤ 999/1000 :=
    max_le (by norm_num) (min_le_right _ _)
  have hh2 : max (1/1000) (min (highcut / ((sr : ℚ) / 2)) (999/1000)) ≤ 999/1000 :=
    max_le (by norm_num) (min_le_right _ _)
  split_ifs with h
  · exact ⟨hl1, hl2, by linarith, by linarith⟩
  · exact ⟨hl1, hl2, by linarith, by linarith⟩

/-- Counterexample to C4 as stated: for lowcut 150 Hz, highcut 400 Hz
at sample rate 100 Hz both normalized cutoffs clamp to 0.999 (the
closed-interval endpoint, outside the claimed open interval), and the
low ≥ high adjustment then yields high = 1.009, outside (0.001,
0.999) altogether. -/
theorem butter_band_cex :
    ¬ (1/1000 < (butter_bandpass_band 150 400 100).1
      ∧ (butter_bandpass_band 150 400 100).1 < 999/1000
      ∧ 1/1000 < (butter_bandpass_band 150 400 100).2
      ∧ (butter_bandpass_band 150 400 100).2 < 999/1000
      ∧ (butter_bandpass_band 150 400 100).1 < (butter_bandpass_band 150 400 100).2) := by
  have h : butter_bandpass_band 150 400 100 = (999/1000, 1009/1000) := by
    norm_num [butter_bandpass_band, min_def, max_def]
  rw [h]
  norm_num

/-- C6: an exception in one band (oracle `none`) does not abort the
analysis: the run is identical to one where that band detected no
onsets at all, that band's list is empty, and the other band's list
is unaffected by the failure. -/
theorem band_failure_isolated (bf sf : Option (List ℕ)) (sr : ℕ)
    (tR : Option (ℚ ⊕ List ℚ)) (d : ℚ) :
    analyze_audio none sf sr tR d = analyze_audio (some []) sf sr tR d
    ∧ (analyze_audio none sf sr tR d).bass_hits = []
    ∧ (analyze_audio none sf sr tR d).snare_hits = (analyze_audio bf sf sr tR d).snare_hits
    ∧ analyze_audio bf none sr tR d = analyze_audio bf (some []) sr tR d
    ∧ (analyze_audio bf none sr tR d).snare_hits = []
    ∧ (analyze_audio bf none sr tR d).bass_hits = (analyze_audio bf sf sr tR d).bass_hits :=
  ⟨rfl, rfl, rfl, rfl, rfl, rfl⟩

/-- C8: in every assembled analysis result, `bass_count` is the length
of `bass_hits` and `snare_count` is the length of `snare_hits`. -/
theorem counts_match (bf sf : Option (List ℕ)) (sr : ℕ)
    (tR : Option (ℚ ⊕ List ℚ)) (d : ℚ) :
    (analyze_audio bf sf sr tR d).bass_count
      = (analyze_audio bf sf sr tR d).bass_hits.length
    ∧ (analyze_audio bf sf sr tR d).snare_count
      = (analyze_audio bf sf sr tR d).snare_hits.length :=
  ⟨rfl, rfl⟩

/-- C5: whenever direct tempo estimation raises (beat-track oracle
`none`), the BPM of the result is exactly the spec's fallback: with at
least 4 merged beats, `round(60 / median(consecutive intervals of the
first ≤ 20 beats))`; with fewer than 4 beats or a non-positive median
interval, 120. -/
theorem bpm_fallback_spec (bf sf : Option (List ℕ)) (sr : ℕ) (d : ℚ) :
    (analyze_audio bf sf sr none d).bpm
      = specFallbackBpm (analyze_audio bf sf sr none d).all_beats := by
  simp only [analyze_bpm, analyze_all_beats]
  exact fallbackBpm_eq_spec _

/-- C7: if both band detections produced empty onset lists, `all_beats`
is empty and, the fallback chain being taken (beat-track oracle
`none`), the BPM resolves to the fixed default 120. -/
theorem both_bands_empty (bf sf : Option (List ℕ)) (sr : ℕ) (d : ℚ)
    (hb : (analyze_audio bf sf sr none d).bass_hits = [])
    (hs : (analyze_audio bf sf sr none d).snare_hits = []) :
    (analyze_audio bf sf sr none d).all_beats = []
    ∧ (analyze_audio bf sf sr none d).bpm = 120 := by
  simp only [analyze_bass_hits, analyze_snare_hits] at hb hs
  simp only [analyze_all_beats, analyze_bpm, hb, hs]
  exact ⟨rfl, rfl⟩

/-- Witness for C7: both band oracles fail outright. -/
theorem both_bands_empty_witness :
    (analyze_audio none none 22050 none 0).bass_hits = []
    ∧ (analyze_audio none none 22050 none 0).snare_hits = []
    ∧ ((analyze_audio none none 22050 none 0).all_beats = []
      ∧ (analyze_audio none none 22050 none 0).bpm = 120) :=
  ⟨rfl, rfl, both_bands_empty none none 22050 0 rfl rfl⟩

/-- C9: when opening the file raises `FileNotFoundError`, `main` exits
with status 1 and emits a structured error whose message contains the
given path. -/
theorem main_file_not_found (a0 fp : String) (rest : List String)
    (run : String → RunOutcome) (h : run fp = RunOutcome.fileNotFound) :
    (main (a0 :: fp :: rest) run).exitCode = 1
    ∧ (main (a0 :: fp :: rest) run).errorMsg = some ("File not found: " ++ fp)
    ∧ ∃ p : String, "File not found: " ++ fp = p ++ fp := by
  unfold main
  dsimp only
  rw [h]
  exact ⟨rfl, rfl, "File not found: ", rfl⟩

/-- Witness for C9 at a concrete missing path. -/
theorem main_file_not_found_witness :
    ((fun _ : String => RunOutcome.fileNotFound) "missing.mp3" = RunOutcome.fileNotFound)
    ∧ ((main ["analyze-beats.py", "missing.mp3"] (fun _ => RunOutcome.fileNotFound)).exitCode = 1
      ∧ (main ["analyze-beats.py", "missing.mp3"] (fun _ => RunOutcome.fileNotFound)).errorMsg
          = some ("File not found: " ++ "missing.mp3")
      ∧ ∃ p : String, "File not found: " ++ "missing.mp3" = p ++ "missing.mp3") :=
  ⟨rfl, main_file_not_found "analyze-beats.py" "missing.mp3" []
    (fun _ => RunOutcome.fileNotFound) rfl⟩

/-- C10: when the median-interval fallback actually computes a BPM
(beat tracking raised, at least 4 merged beats, positive median
interval), the BPM is at most 600: the merged list's consecutive
intervals are each at least 0.1 s after the 0.1 s de-duplication, so
the median interval is at least 0.1 s and `round(60 / median) ≤ 600`. -/
theorem fallback_bpm_le_600 (bf sf : Option (List ℕ)) (sr : ℕ) (d : ℚ)
    (h4 : 4 ≤ (analyze_audio bf sf sr none d).all_beats.length)
    (hm : 0 < median (diffs ((analyze_audio bf sf sr none d).all_beats.take 20))) :
    (analyze_audio bf sf sr none d).bpm ≤ 600 := by
  simp only [analyze_all_beats] at h4 hm
  simp only [analyze_bpm]
  show fallbackBpm (mergeBeats (bandHits bf sr) (bandHits sf sr)) ≤ 600
  set beats := mergeBeats (bandHits bf sr) (bandHits sf sr) with hbdef
  unfold fallbackBpm
  dsimp only
  rw [if_pos h4, if_pos hm]
  have hchain : List.Chain' (fun a b => (1:ℚ)/10 ≤ b - a) beats := by
    rw [hbdef]
    apply chain'_mergeBeats
    rw [← hbdef]
    omega
  have hdall : ∀ x ∈ diffs (beats.take 20), (1:ℚ)/10 ≤ x :=
    diffs_all_ge _ _ (hchain.take 20)
  have hne : diffs (beats.take 20) ≠ [] := by
    have h1 := diffs_length (beats.take 20)
    have h2 := List.length_take 20 beats
    rw [← List.length_pos]
    omega
  have hmed := le_median _ _ hne hdall
  have h600 : 60 / median (diffs (beats.take 20)) ≤ 600 := by
    rw [div_le_iff₀ hm]
    linarith
  have hub := roundEven_le (60 / median (diffs (beats.take 20)))
  have hlt : ((roundEven (60 / median (diffs (beats.take 20))) : ℤ) : ℚ) < 601 := by
    linarith
  have : roundEven (60 / median (diffs (beats.take 20))) < 601 := by exact_mod_cast hlt
  omega

/-- Witness for C10: five bass onsets 0.15 s apart; the fallback
computes BPM 400 ≤ 600. -/
theorem fallback_bpm_le_600_witness :
    4 ≤ (analyze_audio (some [0, 150, 300, 450, 600]) none 512000 none 1).all_beats.length
    ∧ 0 < median (diffs
        ((analyze_audio (some [0, 150, 300, 450, 600]) none 512000 none 1).all_beats.take 20))
    ∧ (analyze_audio (some [0, 150, 300, 450, 600]) none 512000 none 1).bpm ≤ 600 := by
  have hab : (analyze_audio (some [0, 150, 300, 450, 600]) none 512000 none 1).all_beats
      = [0, 3/20, 3/10, 9/20, 3/5] := by
    simp only [analyze_all_beats]
    norm_num [bandHits, detect_onsets, framesToTime, minIntervalFilter, dedupFrom, round3,
      roundEven, Int.fract, mergeBeats, sortedUnion, List.dedup, List.insertionSort,
      List.orderedInsert]
  have h4 : 4 ≤ (analyze_audio (some [0, 150, 300, 450, 600]) none 512000 none 1).all_beats.length := by
    rw [hab]
    norm_num
  have hm : 0 < median (diffs
      ((analyze_audio (some [0, 150, 300, 450, 600]) none 512000 none 1).all_beats.take 20)) := by
    rw [hab]
    norm_num [median, diffs, List.insertionSort, List.orderedInsert]
  exact ⟨h4, hm, fallback_bpm_le_600 _ _ _ _ h4 hm⟩

/-- C1 (amended): the BPM field is always an integer, and it is
positive whenever (a) any successful direct tempo estimate exceeds
0.5 BPM (the code rounds whatever the library returns, so a
half-or-smaller estimate would round to 0), and (b) on the
median-interval fallback the median interval is under 120 s (beyond
that `round(60 / median)` is 0); the fixed default 120 is positive. -/
theorem bpm_positive (bf sf : Option (List ℕ)) (sr : ℕ)
    (tR : Option (ℚ ⊕ List ℚ)) (d : ℚ)
    (h1 : ∀ t : ℚ, tR.bind normalizeTempo = some t → 1/2 < t)
    (h2 : tR.bind normalizeTempo = none →
      4 ≤ (analyze_audio bf sf sr tR d).all_beats.length →
      median (diffs ((analyze_audio bf sf sr tR d).all_beats.take 20)) < 120) :
    0 < (analyze_audio bf sf sr tR d).bpm := by
  simp only [analyze_all_beats] at h2
  simp only [analyze_bpm]
  unfold computeBpm
  cases hopt : tR.bind normalizeTempo with
  | some t =>
    have ht := h1 t hopt
    have hlb := le_roundEven t
    show (0:ℤ) < roundEven t
    have : (0:ℚ) < (roundEven t : ℚ) := by linarith
    exact_mod_cast this
  | none =>
    show (0:ℤ) < fallbackBpm (mergeBeats (bandHits bf sr) (bandHits sf sr))
    unfold fallbackBpm
    dsimp only
    split_ifs with hlen hmed
    · have hm120 := h2 hopt hlen
      have hgt : (1:ℚ)/2
          < 60 / median (diffs ((mergeBeats (bandHits bf sr) (bandHits sf sr)).take 20)) := by
        rw [lt_div_iff₀ hmed]
        linarith
      have hlb := le_roundEven
        (60 / median (diffs ((mergeBeats (bandHits bf sr) (bandHits sf sr)).take 20)))
      have : (0:ℚ) < (roundEven
          (60 / median (diffs ((mergeBeats (bandHits bf sr) (bandHits sf sr)).take 20))) : ℚ) := by
        linarith
      exact_mod_cast this
    · norm_num
    · norm_num

/-- Witness for C1: beat tracking raises, five bass onsets 0.2 s apart,
fallback BPM 300 > 0. -/
theorem bpm_positive_witness :
    (∀ t : ℚ, (none : Option (ℚ ⊕ List ℚ)).bind normalizeTempo = some t → 1/2 < t)
    ∧ ((none : Option (ℚ ⊕ List ℚ)).bind normalizeTempo = none →
        4 ≤ (analyze_audio (some [0, 200, 400, 600, 800]) none 512000 none 1).all_beats.length →
        median (diffs
          ((analyze_audio (some [0, 200, 400, 600, 800]) none 512000 none 1).all_beats.take 20)) < 120)
    ∧ 0 < (analyze_audio (some [0, 200, 400, 600, 800]) none 512000 none 1).bpm := by
  have hab : (analyze_audio (some [0, 200, 400, 600, 800]) none 512000 none 1).all_beats
      = [0, 1/5, 2/5, 3/5, 4/5] := by
    simp only [analyze_all_beats]
    norm_num [bandHits, detect_onsets, framesToTime, minIntervalFilter, dedupFrom, round3,
      roundEven, Int.fract, mergeBeats, sortedUnion, List.dedup, List.insertionSort,
      List.orderedInsert]
  have h1 : ∀ t : ℚ, (none : Option (ℚ ⊕ List ℚ)).bind normalizeTempo = some t → 1/2 < t :=
    fun t h => nomatch h
  have h2 : (none : Option (ℚ ⊕ List ℚ)).bind normalizeTempo = none →
      4 ≤ (analyze_audio (some [0, 200, 400, 600, 800]) none 512000 none 1).all_beats.length →
      median (diffs
        ((analyze_audio (some [0, 200, 400, 600, 800]) none 512000 none 1).all_beats.take 20)) < 120 := by
    intro _ _
    rw [hab]
    norm_num [median, diffs, List.insertionSort, List.orderedInsert]
  exact ⟨h1, h2, bpm_positive _ _ _ _ _ h1 h2⟩

/-- Counterexample to C1 as stated: four merged beats 130 s apart reach
the median-interval fallback with median 130 s, and
`round(60 / 130) = 0` — the reported BPM is 0, not positive. -/
theorem bpm_positive_cex :
    (analyze_audio (some [0, 130000, 260000, 390000]) none 512000 none 400).bpm = 0
    ∧ ¬ 0 < (analyze_audio (some [0, 130000, 260000, 390000]) none 512000 none 400).bpm := by
  have hb : bandHits (some [0, 130000, 260000, 390000]) 512000 = [0, 130, 260, 390] := by
    norm_num [bandHits, detect_onsets, framesToTime, minIntervalFilter, dedupFrom, round3,
      roundEven, Int.fract]
  have h : (analyze_audio (some [0, 130000, 260000, 390000]) none 512000 none 400).bpm = 0 := by
    simp only [analyze_bpm]
    show fallbackBpm (mergeBeats (bandHits (some [0, 130000, 260000, 390000]) 512000)
      (bandHits none 512000)) = 0
    rw [hb]
    show fallbackBpm (mergeBeats [0, 130, 260, 390] []) = 0
    have hm : mergeBeats [0, 130, 260, 390] ([] : List ℚ) = [0, 130, 260, 390] := by
      norm_num [mergeBeats, sortedUnion, List.dedup, List.insertionSort, List.orderedInsert,
        minIntervalFilter, dedupFrom]
    rw [hm]
    norm_num [fallbackBpm, diffs, median, List.insertionSort, List.orderedInsert,
      roundEven, Int.fract]
  exact ⟨h, by rw [h]; norm_num⟩

end AnalyzeBeats
